import Mathlib

/-!
Verification of the contact-directory core (`finalHW.py`).

The Python `datetime.date` values are modelled as proleptic Gregorian
triples (year, month, day); `toOrdinal` is `date.toordinal` (0001-01-01
is day 1), `weekday` is `date.weekday` (Monday = 0).  `date + timedelta`
is `addDays`; `date.replace(year=y)` is `pyReplaceYear`, which fails
exactly when CPython raises `ValueError` (messages follow CPython).
Fallible constructors return `Except String _`, the string being the
Python exception text; mutation is modelled by returning updated values.
-/

deriving instance DecidableEq for Except

/-- `datetime._is_leap`: Gregorian leap-year rule. -/
def isLeapYear (y : Nat) : Bool :=
  y % 4 == 0 && (y % 100 != 0 || y % 400 == 0)

/-- `_DAYS_IN_MONTH` for a non-leap year (0 for a month outside 1..12). -/
def daysInMonthBase : Nat → Nat
  | 1 => 31 | 2 => 28 | 3 => 31 | 4 => 30 | 5 => 31 | 6 => 30
  | 7 => 31 | 8 => 31 | 9 => 30 | 10 => 31 | 11 => 30 | 12 => 31
  | _ => 0

/-- `datetime._days_in_month`. -/
def daysInMonth (y m : Nat) : Nat :=
  if m == 2 && isLeapYear y then 29 else daysInMonthBase m

/-- `_DAYS_BEFORE_MONTH` (cumulative days before a month in a non-leap year). -/
def daysBeforeMonthBase : Nat → Nat
  | 1 => 0 | 2 => 31 | 3 => 59 | 4 => 90 | 5 => 120 | 6 => 151
  | 7 => 181 | 8 => 212 | 9 => 243 | 10 => 273 | 11 => 304 | 12 => 334
  | _ => 0

/-- `datetime._days_before_month`. -/
def daysBeforeMonth (y m : Nat) : Nat :=
  daysBeforeMonthBase m + (if 2 < m && isLeapYear y then 1 else 0)

/-- `datetime._days_before_year`: days before January 1st of year `y`. -/
def daysBeforeYear (y : Nat) : Nat :=
  365 * (y - 1) + (y - 1) / 4 - (y - 1) / 100 + (y - 1) / 400

/-- A Python `datetime.date` as a (year, month, day) triple. -/
structure PyDate where
  year : Nat
  month : Nat
  day : Nat
deriving DecidableEq

/-- `_check_date_fields` without the upper year bound: a structurally
well-formed Gregorian date (the 9999 bound is checked where CPython
checks it, in `pyReplaceYear` and `strptimeDMY`). -/
def PyDate.Valid (d : PyDate) : Prop :=
  1 ≤ d.year ∧ 1 ≤ d.month ∧ d.month ≤ 12 ∧ 1 ≤ d.day ∧
    d.day ≤ daysInMonth d.year d.month

instance (d : PyDate) : Decidable d.Valid := by
  unfold PyDate.Valid; infer_instance

/-- `date.toordinal`: day number with 0001-01-01 as day 1. -/
def PyDate.toOrdinal (d : PyDate) : Nat :=
  daysBeforeYear d.year + daysBeforeMonth d.year d.month + d.day

/-- `date.weekday`: Monday = 0 … Sunday = 6. -/
def PyDate.weekday (d : PyDate) : Nat :=
  (d.toOrdinal + 6) % 7

/-- Advance a date by one calendar day. -/
def PyDate.addOneDay (d : PyDate) : PyDate :=
  if d.day < daysInMonth d.year d.month then ⟨d.year, d.month, d.day + 1⟩
  else if d.month < 12 then ⟨d.year, d.month + 1, 1⟩
  else ⟨d.year + 1, 1, 1⟩

/-- `date + timedelta(days=n)` for `n ≥ 0` (years are not clamped at
9999 in the model; all claims stay far below `date.max`). -/
def PyDate.addDays (d : PyDate) : Nat → PyDate
  | 0 => d
  | n + 1 => d.addOneDay.addDays n

/-- Python `date < date` (lexicographic on year, month, day). -/
def pyLt (a b : PyDate) : Bool :=
  a.year < b.year ||
    (a.year == b.year &&
      (a.month < b.month || (a.month == b.month && a.day < b.day)))

/-- `date.replace(year=y)`: revalidates the fields and fails exactly when
CPython raises `ValueError` (messages follow CPython's C implementation). -/
def pyReplaceYear (d : PyDate) (y : Nat) : Except String PyDate :=
  if ¬ (1 ≤ y ∧ y ≤ 9999) then .error "year must be in 1..9999"
  else if ¬ (1 ≤ d.month ∧ d.month ≤ 12) then .error "month must be in 1..12"
  else if ¬ (1 ≤ d.day ∧ d.day ≤ daysInMonth y d.month) then
    .error "day is out of range for month"
  else .ok ⟨y, d.month, d.day⟩

/-- `AddressBook.find_next_weekday` (the `self` argument is unused in the
source and dropped here). -/
def find_next_weekday (d : PyDate) (weekday : Nat) : PyDate :=
  let days_ahead : Int := (weekday : Int) - (d.weekday : Int)
  let days_ahead := if days_ahead ≤ 0 then days_ahead + 7 else days_ahead
  d.addDays days_ahead.toNat

/-- The weekend-shift step of `get_upcoming_birthdays`: a Saturday or
Sunday date is moved to the next Monday. -/
def shiftWeekend (d : PyDate) : PyDate :=
  if 5 ≤ d.weekday then find_next_weekday d 0 else d

/-- Decimal digits of `n`, most significant first (fuel-driven so that it
reduces in the kernel; the fuel `n + 1` always suffices). -/
def digitsOfAux : Nat → Nat → List Char
  | 0, _ => []
  | fuel + 1, n =>
    if n < 10 then [Char.ofNat (48 + n)]
    else digitsOfAux fuel (n / 10) ++ [Char.ofNat (48 + n % 10)]

/-- Unpadded decimal rendering of a natural number (glibc `%Y`). -/
def natDec (n : Nat) : String :=
  ⟨digitsOfAux (n + 1) n⟩

/-- Two-digit zero-padded rendering (`%m`, `%d`). -/
def pad2 (n : Nat) : String :=
  if n < 10 then "0" ++ natDec n else natDec n

/-- `date.strftime("%Y.%m.%d")`. -/
def strftimeYMD (d : PyDate) : String :=
  natDec d.year ++ "." ++ pad2 d.month ++ "." ++ pad2 d.day

/-- Numeric value of an ASCII digit character. -/
def digitVal (c : Char) : Nat := c.toNat - 48

/-- The first codepoint of every decade of Unicode category Nd (decimal
digits), per the Unicode 14.0 data CPython 3.11 ships: each decade holds
one script's digits 0-9 in order, so a codepoint `n` is a decimal digit
iff `s ≤ n < s + 10` for some start `s`, with decimal value `n - s`.
Checked exhaustively against CPython: `re`'s str-pattern `\d` matches
exactly these 660 characters. -/
def ndDecadeStarts : List Nat :=
  [48, 1632, 1776, 1984, 2406, 2534, 2662, 2790, 2918, 3046, 3174, 3302,
   3430, 3558, 3664, 3792, 3872, 4160, 4240, 6112, 6160, 6470, 6608, 6784,
   6800, 6992, 7088, 7232, 7248, 42528, 43216, 43264, 43472, 43504, 43600,
   44016, 65296, 66720, 68912, 69734, 69872, 69942, 70096, 70384, 70736,
   70864, 71248, 71360, 71472, 71904, 72016, 72784, 73040, 73120, 92768,
   92864, 93008, 120782, 120792, 120802, 120812, 120822, 123200, 123632,
   125264, 130032]

/-- Python's str-pattern `\d`: any Unicode decimal digit (category Nd). -/
def isNdDigit (c : Char) : Bool :=
  ndDecadeStarts.any fun s =>
    decide (s ≤ c.toNat) && decide (c.toNat < s + 10)

/-- The decimal value of a Unicode decimal digit, as `int()` reads it
(0 for a character outside category Nd). -/
def ndVal (c : Char) : Nat :=
  match ndDecadeStarts.find? (fun s =>
      decide (s ≤ c.toNat) && decide (c.toNat < s + 10)) with
  | some s => c.toNat - s
  | none => 0

/-- `int()` on a matched digit string: positional value over the digits'
Unicode decimal values (so mixed scripts parse, e.g. ASCII 2 then
Arabic-Indic five reads as 25). -/
def decimalVal (cs : List Char) : Nat :=
  cs.foldl (fun a c => 10 * a + ndVal c) 0

/-- Python's `$` anchor: matches at the end of the string or just before
a single newline at the end of the string. -/
def dollarEnd (cs : List Char) : Bool :=
  cs == [] || cs == ['\n']

/-- `re.match` for `\d{n}$` at the current position: `n` Unicode decimal
digits followed by the `$` anchor. -/
def matchDigits : Nat → List Char → Bool
  | 0, cs => dollarEnd cs
  | _ + 1, [] => false
  | n + 1, c :: cs => isNdDigit c && matchDigits n cs

/-- `Phone.validate_phone`: `re.match(r'^\d{10}$', value) is not None`. -/
def validate_phone (s : String) : Bool :=
  matchDigits 10 s.data

/-- The `Phone` field: stores the raw string; `str(phone)` is `value`. -/
structure Phone where
  value : String
deriving DecidableEq

/-- `Phone.__init__`: stores the value, then raises `ValueError` unless
`validate_phone` accepts it. -/
def Phone.construct (s : String) : Except String Phone :=
  if validate_phone s then .ok ⟨s⟩ else .error "Invalid phone number format."

/-- The character range `[1-9]` of `_strptime`'s patterns: ASCII only (a
regex range covers codepoints, not digit values). -/
def oneNine (c : Char) : Prop := '1' ≤ c ∧ c ≤ '9'

instance (c : Char) : Decidable (oneNine c) := by
  unfold oneNine; infer_instance

/-- The two-character alternatives of `%d`'s pattern
`(3[01]|[12]\d|0[1-9]|[1-9])`: literals and ranges are ASCII codepoints,
while the `\d` after `[12]` admits any Unicode decimal digit (so `2` then
Arabic-Indic five is a valid day of 25, but an Nd digit in the first
position is not). -/
def dayTwo (c1 c2 : Char) : Prop :=
  (c1 = '3' ∧ (c2 = '0' ∨ c2 = '1')) ∨
    ((c1 = '1' ∨ c1 = '2') ∧ isNdDigit c2 = true) ∨
    (c1 = '0' ∧ '1' ≤ c2 ∧ c2 ≤ '9')

instance (c1 c2 : Char) : Decidable (dayTwo c1 c2) := by
  unfold dayTwo; infer_instance

/-- The two-character alternatives of `%m`'s pattern `(1[0-2]|0[1-9]|[1-9])`:
all literals and ranges, hence ASCII only. -/
def monthTwo (c1 c2 : Char) : Prop :=
  (c1 = '1' ∧ '0' ≤ c2 ∧ c2 ≤ '2') ∨ (c1 = '0' ∧ '1' ≤ c2 ∧ c2 ≤ '9')

instance (c1 c2 : Char) : Decidable (monthTwo c1 c2) := by
  unfold monthTwo; infer_instance

/-- The `%d` field of `_strptime` followed by `int()` on the matched text.
Committed choice (two characters first) is equivalent to the regex's
ordered alternation with backtracking: every field is followed by a
literal `.` or the end of the string, and a matched second character is a
digit, never `.`, so a two-character match and a one-character match can
never both extend to a full match. -/
def matchDay : List Char → Option (Nat × List Char)
  | c1 :: c2 :: rest =>
    if dayTwo c1 c2 then some (10 * ndVal c1 + ndVal c2, rest)
    else if oneNine c1 then some (ndVal c1, c2 :: rest)
    else none
  | [c1] => if oneNine c1 then some (ndVal c1, []) else none
  | [] => none

/-- The `%m` field of `_strptime` followed by `int()` on the matched text
(committed choice, justified as for `matchDay`). -/
def matchMonth : List Char → Option (Nat × List Char)
  | c1 :: c2 :: rest =>
    if monthTwo c1 c2 then some (10 * ndVal c1 + ndVal c2, rest)
    else if oneNine c1 then some (ndVal c1, c2 :: rest)
    else none
  | [c1] => if oneNine c1 then some (ndVal c1, []) else none
  | [] => none

/-- The `%Y` field of `_strptime` (`\d\d\d\d`): exactly four Unicode
decimal digits, read by `int()`. -/
def matchYear : List Char → Option (Nat × List Char)
  | a :: b :: c :: d :: rest =>
    if isNdDigit a && isNdDigit b && isNdDigit c && isNdDigit d then
      some (1000 * ndVal a + 100 * ndVal b + 10 * ndVal c + ndVal d, rest)
    else none
  | _ => none

/-- `datetime.strptime(s, "%d.%m.%Y").date()`: the `_strptime` regex must
consume the whole string, then the date fields are validated by the
`datetime` constructor (year in 1..9999, day within the month). -/
def strptimeDMY (s : String) : Option PyDate :=
  match matchDay s.data with
  | none => none
  | some (D, r1) =>
    match r1 with
    | '.' :: r2 =>
      match matchMonth r2 with
      | none => none
      | some (M, r3) =>
        match r3 with
        | '.' :: r4 =>
          match matchYear r4 with
          | none => none
          | some (Y, r5) =>
            if r5 = [] ∧ 1 ≤ Y ∧ Y ≤ 9999 ∧ D ≤ daysInMonth Y M then
              some ⟨Y, M, D⟩
            else none
        | _ => none
    | _ => none

/-- The `Birthday` field: stores the parsed date and the raw string;
`str(birthday)` is `value`. -/
structure Birthday where
  value : String
  date : PyDate
deriving DecidableEq

/-- `Birthday.__init__`: any `ValueError` (from `strptime` or the
`datetime` constructor) is replaced by the fixed format message. -/
def Birthday.construct (s : String) : Except String Birthday :=
  match strptimeDMY s with
  | some d => .ok ⟨s, d⟩
  | none => .error "Invalid date format. Use DD.MM.YYYY"

/-- A `Record`: name (unvalidated), ordered phone list, optional birthday. -/
structure Record where
  name : String
  phones : List Phone
  birthday : Option Birthday
deriving DecidableEq

/-- `Record.add_phone`: validates, then appends. -/
def Record.add_phone (r : Record) (phone : String) : Except String Record :=
  match Phone.construct phone with
  | .ok p => .ok ⟨r.name, r.phones ++ [p], r.birthday⟩
  | .error e => .error e

/-- Remove the first phone whose raw value matches (the source loop finds
the first match and `list.remove` deletes that very object). -/
def removeFirstPhone : List Phone → String → Option (List Phone)
  | [], _ => none
  | p :: ps, s =>
    if p.value = s then some ps
    else (removeFirstPhone ps s).map (p :: ·)

/-- `Record.remove_phone`: raises `ValueError` when no phone matches. -/
def Record.remove_phone (r : Record) (phone : String) : Except String Record :=
  match removeFirstPhone r.phones phone with
  | some ps => .ok ⟨r.name, ps, r.birthday⟩
  | none => .error "Phone number not found."

/-- `Record.edit_phone`: with phones present, validates and overwrites
index 0; with no phones, falls back to `add_phone`. -/
def Record.edit_phone (r : Record) (new_phone : String) : Except String Record :=
  match r.phones with
  | [] => r.add_phone new_phone
  | _ :: rest =>
    match Phone.construct new_phone with
    | .ok p => .ok ⟨r.name, p :: rest, r.birthday⟩
    | .error e => .error e

/-- `Record.add_birthday`: sets/overwrites the birthday field. -/
def Record.add_birthday (r : Record) (birthday : String) : Except String Record :=
  match Birthday.construct birthday with
  | .ok b => .ok ⟨r.name, r.phones, some b⟩
  | .error e => .error e

/-- The address book: `self.data`, a `dict` modelled as an insertion-ordered
association list (Python 3.7+ dicts preserve insertion order; overwriting
keeps the key's position). -/
structure AddressBook where
  data : List (String × Record)
deriving DecidableEq

/-- `dict.__setitem__`: replace in place if the key exists, else append. -/
def dictInsert : List (String × Record) → String → Record → List (String × Record)
  | [], k, v => [(k, v)]
  | (k', v') :: rest, k, v =>
    if k' = k then (k, v) :: rest else (k', v') :: dictInsert rest k v

/-- `AddressBook.add_record`: `self.data[record.name.value] = record`. -/
def AddressBook.add_record (book : AddressBook) (record : Record) : AddressBook :=
  ⟨dictInsert book.data record.name record⟩

/-- `dict.get`: the value stored under a key, if any. -/
def lookupName : List (String × Record) → String → Option Record
  | [], _ => none
  | (k, v) :: rest, name => if k = name then some v else lookupName rest name

/-- `AddressBook.find`: `self.data.get(name)`. -/
def AddressBook.find (book : AddressBook) (name : String) : Option Record :=
  lookupName book.data name

/-- The formatted notice emitted for one qualifying record. -/
def congratsMessage (name : String) (d : PyDate) : String :=
  "User " ++ name ++ " has a birthday this week! " ++ strftimeYMD d

/-- The body of the `get_upcoming_birthdays` loop for one record: `none`
when it contributes no notice, `some s` when it appends `s`, `error`
when CPython would raise an uncaught `ValueError` (Feb 29 birthdays in
years where the replaced date does not exist). -/
def birthdayNotice (today : PyDate) (days : Nat) (r : Record) :
    Except String (Option String) :=
  match r.birthday with
  | none => .ok none
  | some b =>
    match pyReplaceYear b.date today.year with
    | .error e => .error e
    | .ok occ0 =>
      match (if pyLt occ0 today then pyReplaceYear occ0 (today.year + 1)
             else .ok occ0) with
      | .error e => .error e
      | .ok occ =>
        if today.toOrdinal ≤ occ.toOrdinal ∧
            occ.toOrdinal ≤ today.toOrdinal + days then
          .ok (some (congratsMessage r.name (shiftWeekend occ)))
        else .ok none

/-- The `get_upcoming_birthdays` loop over the dict's values. -/
def upcomingAux (today : PyDate) (days : Nat) : List Record → Except String (List String)
  | [] => .ok []
  | r :: rs =>
    match birthdayNotice today days r with
    | .error e => .error e
    | .ok none => upcomingAux today days rs
    | .ok (some s) =>
      match upcomingAux today days rs with
      | .error e => .error e
      | .ok l => .ok (s :: l)

/-- `AddressBook.get_upcoming_birthdays` with `today` made explicit
(the source reads `datetime.today()`). -/
def get_upcoming_birthdays (book : AddressBook) (today : PyDate) (days : Nat := 7) :
    Except String (List String) :=
  upcomingAux today days (book.data.map (fun p => p.2))

/-- The `add_contact` handler under its `@input_error` wrapper: returns the
printed message and the updated book (in the source the record inserted
into the dict is mutated in place by `add_phone`). -/
def add_contact : List String → AddressBook → String × AddressBook
  | name :: phone :: _, book =>
    match book.find name with
    | none =>
      let r : Record := ⟨name, [], none⟩
      let book1 := book.add_record r
      if phone = "" then ("Contact added.", book1)
      else
        match r.add_phone phone with
        | .ok r2 => ("Contact added.", book1.add_record r2)
        | .error e => (e, book1)
    | some r =>
      if phone = "" then ("Contact updated.", book)
      else
        match r.add_phone phone with
        | .ok r2 => ("Contact updated.", book.add_record r2)
        | .error e => (e, book)
  | _, book => ("Please provide both name and phone number.", book)

/-- The `show_phone` handler under `@input_error`: the one-element tuple
unpacking raises `ValueError` for extra arguments, a missing record
raises `KeyError`, both converted to strings by the wrapper. -/
def show_phone : List String → AddressBook → String
  | [], _ => "Please provide the name."
  | [name], book =>
    match book.find name with
    | some r => String.intercalate "; " (r.phones.map Phone.value)
    | none => "Enter user name."
  | _ :: _ :: _, _ => "too many values to unpack (expected 1)"

/-- Spec-side reading of claim C4: exactly ten characters, each one of
the ASCII digits `'0'`-`'9'`. -/
def specTenDigits (s : String) : Prop :=
  s.data.length = 10 ∧ ∀ c ∈ s.data, ('0' ≤ c ∧ c ≤ '9')

instance (s : String) : Decidable (specTenDigits s) := by
  unfold specTenDigits; infer_instance

/-- Spec-side reading of the amended claim C4's accept set: exactly ten
Unicode decimal digits (category Nd; the ASCII digits included). -/
def specTenNdDigits (s : String) : Prop :=
  s.data.length = 10 ∧ ∀ c ∈ s.data, isNdDigit c = true

instance (s : String) : Decidable (specTenNdDigits s) := by
  unfold specTenNdDigits; infer_instance

/-- Spec-side reading of claim C5's strict `DD.MM.YYYY`: two-digit day,
two-digit month, four-digit year separated by dots, denoting a real
calendar date. -/
def specStrictDay (l : List Char) : Nat :=
  10 * digitVal (l.getD 0 '0') + digitVal (l.getD 1 '0')

def specStrictMonth (l : List Char) : Nat :=
  10 * digitVal (l.getD 3 '0') + digitVal (l.getD 4 '0')

def specStrictYear (l : List Char) : Nat :=
  1000 * digitVal (l.getD 6 '0') + 100 * digitVal (l.getD 7 '0') +
    10 * digitVal (l.getD 8 '0') + digitVal (l.getD 9 '0')

def specStrictDDMMYYYY (s : String) : Prop :=
  s.data.length = 10 ∧ s.data.getD 2 'x' = '.' ∧ s.data.getD 5 'x' = '.' ∧
    (∀ i ∈ ([0, 1, 3, 4, 6, 7, 8, 9] : List Nat), (s.data.getD i 'x').isDigit) ∧
    1 ≤ specStrictYear s.data ∧ 1 ≤ specStrictMonth s.data ∧
    specStrictMonth s.data ≤ 12 ∧ 1 ≤ specStrictDay s.data ∧
    specStrictDay s.data ≤ daysInMonth (specStrictYear s.data) (specStrictMonth s.data)

instance (s : String) : Decidable (specStrictDDMMYYYY s) := by
  unfold specStrictDDMMYYYY; infer_instance

/-- The field constraints of the amended claim C5: the day is one ASCII
digit `1`-`9` or two characters of the day alternation (which admits a
Unicode decimal digit after an ASCII `1`/`2`), giving a value in 1..31;
the month is one ASCII digit `1`-`9` or two characters of the
ASCII-only month alternation, giving a value in 1..12; the year is
exactly four Unicode decimal digits; values are the fields' decimal
readings, and the day fits the month of that year. -/
def lenientParts (ds ms ys : List Char) : Prop :=
  ((∃ c, ds = [c] ∧ oneNine c) ∨ (∃ c1 c2, ds = [c1, c2] ∧ dayTwo c1 c2)) ∧
    1 ≤ decimalVal ds ∧ decimalVal ds ≤ 31 ∧
    ((∃ c, ms = [c] ∧ oneNine c) ∨
      (∃ c1 c2, ms = [c1, c2] ∧ monthTwo c1 c2)) ∧
    1 ≤ decimalVal ms ∧ decimalVal ms ≤ 12 ∧
    (∀ c ∈ ys, isNdDigit c = true) ∧ ys.length = 4 ∧
    1 ≤ decimalVal ys ∧ decimalVal ys ≤ 9999 ∧
    decimalVal ds ≤ daysInMonth (decimalVal ys) (decimalVal ms)

/-- Spec-side reading of the amended claim C5: a day field, a dot, a
month field, a dot and a year field, with the fields constrained as in
`lenientParts`. -/
def lenientDMY (s : String) : Prop :=
  ∃ ds ms ys : List Char,
    s.data = ds ++ '.' :: (ms ++ '.' :: ys) ∧ lenientParts ds ms ys

/-! ## Helper lemmas -/

theorem removeFirstPhone_none (ps : List Phone) (s : String)
    (h : ∀ p ∈ ps, p.value ≠ s) : removeFirstPhone ps s = none := by
  induction ps with
  | nil => rfl
  | cons p ps ih =>
    have hp : p.value ≠ s := h p (by simp)
    simp [removeFirstPhone, hp, ih fun q hq => h q (by simp [hq])]

theorem removeFirstPhone_first (a : List Phone) (p : Phone) (b : List Phone)
    (s : String) (hp : p.value = s) (ha : ∀ q ∈ a, q.value ≠ s) :
    removeFirstPhone (a ++ p :: b) s = some (a ++ b) := by
  induction a with
  | nil => simp [removeFirstPhone, hp]
  | cons q a ih =>
    have hq : q.value ≠ s := ha q (by simp)
    simp [removeFirstPhone, hq, ih fun x hx => ha x (by simp [hx])]

/-! ## Claims -/

/-- C7: `removePhone` removes exactly the first phone whose value matches;
when none matches it fails with `"Phone number not found."` (the record,
being a value in this model, is untouched on failure). -/
theorem remove_phone_spec (r : Record) (s : String) :
    (∀ a p b, r.phones = a ++ p :: b → p.value = s → (∀ q ∈ a, q.value ≠ s) →
      r.remove_phone s = .ok ⟨r.name, a ++ b, r.birthday⟩) ∧
    ((∀ p ∈ r.phones, p.value ≠ s) →
      r.remove_phone s = .error "Phone number not found.") := by
  constructor
  · intro a p b hsplit hp ha
    simp [Record.remove_phone, hsplit, removeFirstPhone_first a p b s hp ha]
  · intro h
    simp [Record.remove_phone, removeFirstPhone_none r.phones s h]

/-- C6: with a valid new phone, `editPhone` on a non-empty phone list
replaces exactly index 0 and keeps the tail, name and birthday; on an
empty list it is literally `addPhone`. -/
theorem edit_phone_spec (r : Record) (s : String) (h : validate_phone s = true) :
    (r.phones = [] → r.edit_phone s = r.add_phone s) ∧
    (∀ p ps, r.phones = p :: ps →
      r.edit_phone s = .ok ⟨r.name, ⟨s⟩ :: ps, r.birthday⟩) := by
  constructor
  · intro hp; simp [Record.edit_phone, hp]
  · intro p ps hp; simp [Record.edit_phone, hp, Phone.construct, h]

theorem edit_phone_spec_witness :
    ((⟨"Alice", [⟨"0123456789"⟩], none⟩ : Record).phones = [] →
      (⟨"Alice", [⟨"0123456789"⟩], none⟩ : Record).edit_phone "9876543210" =
        (⟨"Alice", [⟨"0123456789"⟩], none⟩ : Record).add_phone "9876543210") ∧
    (∀ p ps, (⟨"Alice", [⟨"0123456789"⟩], none⟩ : Record).phones = p :: ps →
      (⟨"Alice", [⟨"0123456789"⟩], none⟩ : Record).edit_phone "9876543210" =
        .ok ⟨"Alice", ⟨"9876543210"⟩ :: ps, none⟩) :=
  edit_phone_spec ⟨"Alice", [⟨"0123456789"⟩], none⟩ "9876543210" (by decide)

/-- C10: a phone string rejected by validation makes both `addPhone` and
`editPhone` raise the `ValueError` before any mutation: the result is the
error alone, no updated record is produced. -/
theorem invalid_phone_rejected (r : Record) (s : String)
    (h : validate_phone s = false) :
    r.add_phone s = .error "Invalid phone number format." ∧
    r.edit_phone s = .error "Invalid phone number format." := by
  have hc : Phone.construct s = .error "Invalid phone number format." := by
    simp [Phone.construct, h]
  refine ⟨by simp [Record.add_phone, hc], ?_⟩
  cases hp : r.phones with
  | nil => simp [Record.edit_phone, hp, Record.add_phone, hc]
  | cons p ps => simp [Record.edit_phone, hp, hc]

theorem invalid_phone_rejected_witness :
    (⟨"Alice", [⟨"0123456789"⟩], none⟩ : Record).add_phone "abc" =
      .error "Invalid phone number format." ∧
    (⟨"Alice", [⟨"0123456789"⟩], none⟩ : Record).edit_phone "abc" =
      .error "Invalid phone number format." :=
  invalid_phone_rejected ⟨"Alice", [⟨"0123456789"⟩], none⟩ "abc" (by decide)

/-- Inserting under key `r.name` makes that key resolve to `r` and leaves
the lookup of every other key unchanged. -/
theorem dictInsert_lookup (l : List (String × Record)) (r : Record) (k : String) :
    lookupName (dictInsert l r.name r) k =
      if k = r.name then some r else lookupName l k := by
  induction l with
  | nil =>
    by_cases hk : k = r.name
    · simp [dictInsert, lookupName, hk]
    · have h2 : ¬ (r.name = k) := fun h => hk h.symm
      simp [dictInsert, lookupName, hk, h2]
  | cons hd tl ih =>
    obtain ⟨k', v'⟩ := hd
    by_cases h1 : k' = r.name
    · by_cases hk : k = r.name
      · simp [dictInsert, lookupName, h1, hk]
      · have h2 : ¬ (r.name = k) := fun h => hk h.symm
        have h3 : ¬ (k' = k) := fun h => hk (h.symm.trans h1)
        simp [dictInsert, lookupName, h1, hk, h2, h3]
    · by_cases hk : k = r.name
      · have h3 : ¬ (k' = k) := fun h => h1 (h.trans hk)
        subst hk
        simp [dictInsert, lookupName, h1, h3]
        simpa using ih
      · simp [dictInsert, lookupName, h1, hk, ih]

/-- C9: `add_record` maps the key `r.name` to exactly `r` (any previous
entry for that name is discarded whole) and leaves every other name's
entry unchanged. -/
theorem add_record_overwrite_spec (book : AddressBook) (r : Record) (k : String) :
    (book.add_record r).find k = if k = r.name then some r else book.find k := by
  simp [AddressBook.find, AddressBook.add_record, dictInsert_lookup]

/-- C8: the add/add/show scenario: the second `add` updates the existing
record (appending the phone) rather than replacing it. -/
theorem add_contact_scenario :
    (add_contact ["Alice", "0123456789"] ⟨[]⟩).1 = "Contact added." ∧
    (add_contact ["Alice", "9876543210"]
      (add_contact ["Alice", "0123456789"] ⟨[]⟩).2).1 = "Contact updated." ∧
    show_phone ["Alice"]
      (add_contact ["Alice", "9876543210"]
        (add_contact ["Alice", "0123456789"] ⟨[]⟩).2).2 =
      "0123456789; 9876543210" := by decide

/-- C3 (code bug): a validly constructed February 29 birthday makes
`get_upcoming_birthdays` raise an uncaught `ValueError` — here surfaced as
the `.error` case — whenever `today`'s year is not a leap year, and the
`birthdays` command dispatch has no handler for it. -/
theorem upcoming_birthdays_feb29_crash :
    Birthday.construct "29.02.2000" = .ok ⟨"29.02.2000", ⟨2000, 2, 29⟩⟩ ∧
    get_upcoming_birthdays
        ⟨[("Leap", ⟨"Leap", [], some ⟨"29.02.2000", ⟨2000, 2, 29⟩⟩⟩)]⟩
        ⟨2025, 3, 10⟩ 7 =
      .error "day is out of range for month" := by decide

/-- C4 counterexample: `re.match(r'^\d{10}$', v)` also matches ten digits
followed by a trailing newline (`$` matches before a final newline), so
Phone construction succeeds on an 11-character string that is not ten
digits. -/
theorem phone_claim_counterexample :
    Phone.construct "0123456789\n" = .ok ⟨"0123456789\n"⟩ ∧
    ¬ specTenDigits "0123456789\n" := by decide

theorem daysInMonthBase_le (m : Nat) : daysInMonthBase m ≤ 31 := by
  unfold daysInMonthBase; split <;> omega

theorem daysInMonthBase_pos (m : Nat) (h1 : 1 ≤ m) (h2 : m ≤ 12) :
    1 ≤ daysInMonthBase m := by
  rcases m with _ | _ | _ | _ | _ | _ | _ | _ | _ | _ | _ | _ | _ | m
  all_goals first | omega | decide

theorem daysInMonth_le (y m : Nat) : daysInMonth y m ≤ 31 := by
  unfold daysInMonth; split
  · omega
  · exact daysInMonthBase_le m

theorem daysInMonth_pos (y m : Nat) (h1 : 1 ≤ m) (h2 : m ≤ 12) :
    1 ≤ daysInMonth y m := by
  unfold daysInMonth; split
  · omega
  · exact daysInMonthBase_pos m h1 h2

theorem isLeapYear_iff (y : Nat) :
    isLeapYear y = true ↔ (y % 4 = 0 ∧ (y % 100 ≠ 0 ∨ y % 400 = 0)) := by
  simp [isLeapYear]

set_option maxHeartbeats 1000000 in
theorem daysBeforeYear_succ (y : Nat) (h : 1 ≤ y) :
    daysBeforeYear (y + 1) =
      daysBeforeYear y + (if isLeapYear y then 366 else 365) := by
  unfold daysBeforeYear
  by_cases hl : isLeapYear y = true
  · rw [if_pos hl]
    rw [isLeapYear_iff] at hl
    omega
  · rw [if_neg hl]
    rw [isLeapYear_iff] at hl
    omega

theorem daysBeforeMonth_step (y m : Nat) (h1 : 1 ≤ m) (h2 : m ≤ 11) :
    daysBeforeMonth y (m + 1) = daysBeforeMonth y m + daysInMonth y m := by
  interval_cases m <;> cases hl : isLeapYear y <;>
    simp [daysBeforeMonth, daysInMonth, daysBeforeMonthBase, daysInMonthBase, hl]

theorem month12_end (y : Nat) :
    daysBeforeMonth y 12 + daysInMonth y 12 =
      (if isLeapYear y then 366 else 365) := by
  cases hl : isLeapYear y <;>
    simp [daysBeforeMonth, daysInMonth, daysBeforeMonthBase, daysInMonthBase, hl]

theorem daysBeforeMonth_one (y : Nat) : daysBeforeMonth y 1 = 0 := by
  simp [daysBeforeMonth, daysBeforeMonthBase]

theorem PyDate.addOneDay_spec (d : PyDate) (h : d.Valid) :
    d.addOneDay.Valid ∧ d.addOneDay.toOrdinal = d.toOrdinal + 1 := by
  obtain ⟨hy, hm1, hm2, hd1, hd2⟩ := h
  unfold PyDate.addOneDay
  split
  · rename_i hlt
    constructor
    · simp only [PyDate.Valid]; omega
    · simp only [PyDate.toOrdinal]; omega
  · rename_i hge
    split
    · rename_i hmlt
      have hstep := daysBeforeMonth_step d.year d.month hm1 (by omega)
      have hpos := daysInMonth_pos d.year (d.month + 1) (by omega) (by omega)
      constructor
      · simp only [PyDate.Valid]; omega
      · simp only [PyDate.toOrdinal]; omega
    · rename_i hm12
      have h12 : d.month = 12 := by omega
      have hdim : daysInMonth d.year 12 = 31 := by
        simp [daysInMonth, daysInMonthBase]
      have hday : d.day = 31 := by
        rw [h12] at hge hd2; omega
      have hsucc := daysBeforeYear_succ d.year hy
      have hend := month12_end d.year
      have hone : daysBeforeMonth (d.year + 1) 1 = 0 := daysBeforeMonth_one _
      have h31 : daysInMonth (d.year + 1) 1 = 31 := by
        simp [daysInMonth, daysInMonthBase]
      constructor
      · simp only [PyDate.Valid]; omega
      · simp only [PyDate.toOrdinal]
        rw [h12] at hge hd2 ⊢
        cases hl : isLeapYear d.year <;> simp [hl] at hsucc hend <;> omega

theorem PyDate.addDays_spec (d : PyDate) (n : Nat) (h : d.Valid) :
    (d.addDays n).Valid ∧ (d.addDays n).toOrdinal = d.toOrdinal + n := by
  induction n generalizing d with
  | zero => exact ⟨h, rfl⟩
  | succ n ih =>
    obtain ⟨h1, h2⟩ := d.addOneDay_spec h
    obtain ⟨h3, h4⟩ := ih d.addOneDay h1
    refine ⟨h3, ?_⟩
    show (d.addOneDay.addDays n).toOrdinal = d.toOrdinal + (n + 1)
    omega

theorem PyDate.addOneDay_year (d : PyDate) :
    d.year ≤ d.addOneDay.year ∧ d.addOneDay.year ≤ d.year + 1 := by
  unfold PyDate.addOneDay
  split
  · simp
  · split <;> simp

theorem PyDate.addDays_year (d : PyDate) (n : Nat) :
    d.year ≤ (d.addDays n).year ∧ (d.addDays n).year ≤ d.year + n := by
  induction n generalizing d with
  | zero => simp [PyDate.addDays]
  | succ n ih =>
    have h1 := d.addOneDay_year
    have h2 := ih d.addOneDay
    show d.year ≤ (d.addOneDay.addDays n).year ∧
      (d.addOneDay.addDays n).year ≤ d.year + (n + 1)
    omega

theorem PyDate.weekday_lt (d : PyDate) : d.weekday < 7 :=
  Nat.mod_lt _ (by omega)

theorem PyDate.addDays_weekday (d : PyDate) (n : Nat) (h : d.Valid) :
    (d.addDays n).weekday = (d.weekday + n) % 7 := by
  have h2 := (d.addDays_spec n h).2
  unfold PyDate.weekday
  rw [h2]
  omega

/-- C2: for a valid date `d` and target weekday `w < 7`,
`find_next_weekday` lands strictly after `d`, between 1 and 7 days ahead,
on a date whose weekday is `w`; when `d` already has weekday `w` it moves
exactly 7 days. -/
theorem find_next_weekday_spec (d : PyDate) (w : Nat) (hd : d.Valid) (hw : w < 7) :
    (find_next_weekday d w).Valid ∧
    d.toOrdinal < (find_next_weekday d w).toOrdinal ∧
    (find_next_weekday d w).toOrdinal ≤ d.toOrdinal + 7 ∧
    (find_next_weekday d w).weekday = w ∧
    (d.weekday = w → (find_next_weekday d w).toOrdinal = d.toOrdinal + 7) := by
  have hwd := d.weekday_lt
  set a : Int := (w : Int) - (d.weekday : Int) with ha
  set n : Nat := (if a ≤ 0 then a + 7 else a).toNat with hn
  have hfw : find_next_weekday d w = d.addDays n := rfl
  have hfacts : 1 ≤ n ∧ n ≤ 7 ∧ (d.weekday + n) % 7 = w ∧
      (d.weekday = w → n = 7) := by
    rw [hn, ha]; split <;> omega
  obtain ⟨hv, ho⟩ := d.addDays_spec n hd
  have hwk := d.addDays_weekday n hd
  rw [hfw]
  refine ⟨hv, by omega, by omega, by rw [hwk]; exact hfacts.2.2.1, fun he => ?_⟩
  rw [ho, hfacts.2.2.2 he]

theorem find_next_weekday_spec_witness :
    (find_next_weekday ⟨2024, 3, 15⟩ 0).Valid ∧
    (⟨2024, 3, 15⟩ : PyDate).toOrdinal < (find_next_weekday ⟨2024, 3, 15⟩ 0).toOrdinal ∧
    (find_next_weekday ⟨2024, 3, 15⟩ 0).toOrdinal ≤ (⟨2024, 3, 15⟩ : PyDate).toOrdinal + 7 ∧
    (find_next_weekday ⟨2024, 3, 15⟩ 0).weekday = 0 ∧
    ((⟨2024, 3, 15⟩ : PyDate).weekday = 0 →
      (find_next_weekday ⟨2024, 3, 15⟩ 0).toOrdinal = (⟨2024, 3, 15⟩ : PyDate).toOrdinal + 7) :=
  find_next_weekday_spec ⟨2024, 3, 15⟩ 0 (by decide) (by decide)

/-! ## Phone validation (claim C4) -/

theorem matchDigits_iff (n : Nat) (cs : List Char) :
    matchDigits n cs = true ↔
      ((cs.length = n ∧ ∀ c ∈ cs, isNdDigit c = true) ∨
       ((∀ c ∈ cs.take n, isNdDigit c = true) ∧ cs.drop n = ['\n'])) := by
  induction n generalizing cs with
  | zero =>
    cases cs with
    | nil => simp [matchDigits, dollarEnd]
    | cons c cs' => simp [matchDigits, dollarEnd]
  | succ n ih =>
    cases cs with
    | nil => simp [matchDigits]
    | cons c cs' =>
      simp [matchDigits, ih, List.take_succ_cons, List.drop_succ_cons]
      tauto

/-- C4 (amended): Phone construction succeeds exactly on ten Unicode
decimal digits, optionally followed by one trailing newline (Python's `$`
anchor also matches just before a final newline); on success the stored
value is the raw string, otherwise construction fails with the fixed
message. -/
theorem phone_construct_amended (s : String) :
    Phone.construct s =
      if specTenNdDigits s ∨
          ((∀ c ∈ s.data.take 10, isNdDigit c = true) ∧
            s.data.drop 10 = ['\n']) then
        .ok ⟨s⟩
      else .error "Invalid phone number format." := by
  have hiff : validate_phone s = true ↔
      (specTenNdDigits s ∨
        ((∀ c ∈ s.data.take 10, isNdDigit c = true) ∧
          s.data.drop 10 = ['\n'])) := by
    unfold validate_phone
    rw [matchDigits_iff]
    unfold specTenNdDigits
    exact Iff.rfl
  by_cases h : validate_phone s = true
  · unfold Phone.construct
    rw [if_pos h, if_pos (hiff.mp h)]
  · unfold Phone.construct
    rw [if_neg h, if_neg (fun hc => h (hiff.mpr hc))]

/-! ## Notice-string lengths and injectivity (for claim C1) -/

theorem digitsOfAux_len1 (f n : Nat) (hf : 1 ≤ f) (hn : n < 10) :
    (digitsOfAux f n).length = 1 := by
  cases f with
  | zero => omega
  | succ f => simp [digitsOfAux, hn]

theorem digitsOfAux_len2 (f n : Nat) (hf : 2 ≤ f) (h1 : 10 ≤ n) (h2 : n < 100) :
    (digitsOfAux f n).length = 2 := by
  cases f with
  | zero => omega
  | succ f =>
    have hn : ¬ n < 10 := by omega
    simp [digitsOfAux, hn, digitsOfAux_len1 f (n / 10) (by omega) (by omega)]

theorem digitsOfAux_len3 (f n : Nat) (hf : 3 ≤ f) (h1 : 100 ≤ n) (h2 : n < 1000) :
    (digitsOfAux f n).length = 3 := by
  cases f with
  | zero => omega
  | succ f =>
    have hn : ¬ n < 10 := by omega
    simp [digitsOfAux, hn,
      digitsOfAux_len2 f (n / 10) (by omega) (by omega) (by omega)]

theorem digitsOfAux_len4 (f n : Nat) (hf : 4 ≤ f) (h1 : 1000 ≤ n) (h2 : n < 10000) :
    (digitsOfAux f n).length = 4 := by
  cases f with
  | zero => omega
  | succ f =>
    have hn : ¬ n < 10 := by omega
    simp [digitsOfAux, hn,
      digitsOfAux_len3 f (n / 10) (by omega) (by omega) (by omega)]

theorem natDec_len1 (n : Nat) (h : n < 10) : (natDec n).length = 1 :=
  digitsOfAux_len1 (n + 1) n (by omega) h

theorem natDec_len2 (n : Nat) (h1 : 10 ≤ n) (h2 : n < 100) : (natDec n).length = 2 :=
  digitsOfAux_len2 (n + 1) n (by omega) h1 h2

theorem natDec_len4 (n : Nat) (h1 : 1000 ≤ n) (h2 : n < 10000) :
    (natDec n).length = 4 :=
  digitsOfAux_len4 (n + 1) n (by omega) h1 h2

theorem pad2_len (n : Nat) (h : n < 100) : (pad2 n).length = 2 := by
  unfold pad2
  split
  · rename_i h10
    rw [String.length_append, natDec_len1 n h10]
    decide
  · rename_i h10
    rw [natDec_len2 n (by omega) h]

theorem strftimeYMD_len (d : PyDate) (hy1 : 1000 ≤ d.year) (hy2 : d.year < 10000)
    (hm : d.month < 100) (hd : d.day < 100) : (strftimeYMD d).length = 10 := by
  unfold strftimeYMD
  rw [String.length_append, String.length_append, String.length_append,
    String.length_append, natDec_len4 d.year hy1 hy2, pad2_len d.month hm,
    pad2_len d.day hd]
  decide

theorem congratsMessage_inj (n1 n2 : String) (d1 d2 : PyDate)
    (hl : (strftimeYMD d1).length = (strftimeYMD d2).length)
    (he : congratsMessage n1 d1 = congratsMessage n2 d2) : n1 = n2 := by
  unfold congratsMessage at he
  have hdata := congrArg String.data he
  simp only [String.data_append, List.append_assoc] at hdata
  have h2 : n1.data ++ (" has a birthday this week! ".data ++ (strftimeYMD d1).data) =
      n2.data ++ (" has a birthday this week! ".data ++ (strftimeYMD d2).data) := by
    exact List.append_cancel_left hdata
  have hlen : n1.data.length = n2.data.length := by
    have h3 := congrArg List.length h2
    simp only [List.length_append] at h3
    have hl' : (strftimeYMD d1).data.length = (strftimeYMD d2).data.length := hl
    omega
  exact String.ext (List.append_inj h2 hlen).1

/-! ## Characterizations of the birthday-notice computation -/

theorem pyReplaceYear_ok (d : PyDate) (y : Nat) (o : PyDate)
    (h : pyReplaceYear d y = .ok o) :
    o = ⟨y, d.month, d.day⟩ ∧ o.Valid ∧ 1 ≤ y ∧ y ≤ 9999 := by
  unfold pyReplaceYear at h
  split at h
  · simp at h
  rename_i h1
  split at h
  · simp at h
  rename_i h2
  split at h
  · simp at h
  rename_i h3
  rw [not_not] at h1 h2 h3
  injection h with hinj
  subst hinj
  refine ⟨rfl, ?_, by omega, by omega⟩
  simp only [PyDate.Valid]
  omega

theorem find_next_weekday_zero_year (d : PyDate) :
    d.year ≤ (find_next_weekday d 0).year ∧
      (find_next_weekday d 0).year ≤ d.year + 7 := by
  have ha : ((0 : Int) - (d.weekday : Int)) ≤ 0 := by omega
  have hn : (if (0 : Int) - (d.weekday : Int) ≤ 0 then
      (0 : Int) - (d.weekday : Int) + 7 else (0 : Int) - (d.weekday : Int)).toNat ≤ 7 := by
    rw [if_pos ha]; omega
  have hfw : find_next_weekday d 0 = d.addDays ((if (0 : Int) - (d.weekday : Int) ≤ 0 then
      (0 : Int) - (d.weekday : Int) + 7 else (0 : Int) - (d.weekday : Int)).toNat) := rfl
  rw [hfw]
  have := d.addDays_year ((if (0 : Int) - (d.weekday : Int) ≤ 0 then
      (0 : Int) - (d.weekday : Int) + 7 else (0 : Int) - (d.weekday : Int)).toNat)
  omega

theorem shiftWeekend_year (d : PyDate) :
    d.year ≤ (shiftWeekend d).year ∧ (shiftWeekend d).year ≤ d.year + 7 := by
  unfold shiftWeekend
  split
  · exact find_next_weekday_zero_year d
  · omega

theorem shiftWeekend_valid (d : PyDate) (h : d.Valid) : (shiftWeekend d).Valid := by
  unfold shiftWeekend
  split
  · exact (find_next_weekday_spec d 0 h (by omega)).1
  · exact h

theorem shifted_len (occ : PyDate) (hv : occ.Valid) (h1 : 1000 ≤ occ.year)
    (h2 : occ.year ≤ 9900) : (strftimeYMD (shiftWeekend occ)).length = 10 := by
  have hsv := shiftWeekend_valid occ hv
  have hyr := shiftWeekend_year occ
  obtain ⟨-, -, hm, -, hd⟩ := hsv
  have hdm := daysInMonth_le (shiftWeekend occ).year (shiftWeekend occ).month
  exact strftimeYMD_len _ (by omega) (by omega) (by omega) (by omega)

theorem birthdayNotice_ok_some (today : PyDate) (days : Nat) (r : Record)
    (s : String) (h : birthdayNotice today days r = .ok (some s)) :
    ∃ occ : PyDate, occ.Valid ∧
      (occ.year = today.year ∨ occ.year = today.year + 1) ∧
      s = congratsMessage r.name (shiftWeekend occ) := by
  unfold birthdayNotice at h
  split at h
  · simp at h
  rename_i b hb
  split at h
  · simp at h
  rename_i occ0 hocc0
  split at h
  · simp at h
  rename_i occ hocc
  split at h
  · refine ⟨occ, ?_, ?_, ?_⟩
    · by_cases hlt : pyLt occ0 today = true
      · rw [if_pos hlt] at hocc
        exact (pyReplaceYear_ok _ _ _ hocc).2.1
      · rw [if_neg hlt] at hocc
        injection hocc with hinj
        subst hinj
        exact (pyReplaceYear_ok _ _ _ hocc0).2.1
    · by_cases hlt : pyLt occ0 today = true
      · rw [if_pos hlt] at hocc
        right
        rw [(pyReplaceYear_ok _ _ _ hocc).1]
      · rw [if_neg hlt] at hocc
        injection hocc with hinj
        subst hinj
        left
        rw [(pyReplaceYear_ok _ _ _ hocc0).1]
    · injection h with hinj
      injection hinj with hinj2
      exact hinj2.symm
  · simp at h

theorem upcomingAux_count (today : PyDate) (days : Nat) (rs : List Record)
    (l : List String) (s : String) (h : upcomingAux today days rs = .ok l) :
    l.count s =
      rs.countP (fun r => birthdayNotice today days r == .ok (some s)) := by
  induction rs generalizing l with
  | nil =>
    simp [upcomingAux] at h
    subst h
    simp
  | cons r rs ih =>
    unfold upcomingAux at h
    split at h
    · simp at h
    · rename_i hn
      rw [List.countP_cons]
      have hne : (birthdayNotice today days r == .ok (some s)) = false := by
        simp [hn]
      rw [hne, ih l h]
      simp
    · rename_i t ht
      split at h
      · simp at h
      · rename_i l' hl'
        injection h with hinj
        subst hinj
        rw [List.countP_cons, List.count_cons, ih l' hl', ht]
        by_cases hts : t = s
        · subst hts; simp
        · have h1 : (t == s) = false := beq_eq_false_iff_ne.mpr hts
          have h2 : ((Except.ok (some t) : Except String (Option String)) ==
              .ok (some s)) = false := by simp [hts]
          rw [h1, h2]

theorem countP_eq_ite (rs : List Record) (r : Record) (p : Record → Bool)
    (hnd : (rs.map Record.name).Nodup) (hr : r ∈ rs)
    (hname : ∀ x ∈ rs, p x = true → x.name = r.name) :
    rs.countP p = if p r then 1 else 0 := by
  induction rs with
  | nil => cases hr
  | cons a rs ih =>
    rw [List.countP_cons]
    have hnd' : (rs.map Record.name).Nodup := (List.nodup_cons.mp hnd).2
    have hnotin : a.name ∉ rs.map Record.name := (List.nodup_cons.mp hnd).1
    rcases List.mem_cons.mp hr with rfl | hr'
    · have hz : rs.countP p = 0 := by
        rw [List.countP_eq_zero]
        intro x hx hpx
        exact hnotin (hname x (List.mem_cons_of_mem _ hx) hpx ▸
          List.mem_map.mpr ⟨x, hx, rfl⟩)
      rw [hz]
      omega
    · have hpa : p a = false := by
        by_contra hcon
        have : p a = true := by
          cases hpav : p a
          · exact absurd hpav hcon
          · rfl
        have hn : a.name = r.name := hname a (List.mem_cons_self a rs) this
        exact hnotin (hn ▸ List.mem_map.mpr ⟨r, hr', rfl⟩)
      rw [ih hnd' hr' (fun x hx hpx => hname x (List.mem_cons_of_mem _ hx) hpx),
        hpa]
      simp

/-- C1: when `get_upcoming_birthdays` returns a list (no Feb-29 failure,
see C3), a record `r` with a set birthday contributes exactly one notice
iff the birthday's occurrence — this year's, rolled one year forward when
strictly before today — lies in `[today, today + days]`; the counted
notice is `"User {name} has a birthday this week! {YYYY.MM.DD}"` with the
occurrence weekend-shifted after the window test.  Distinct dict keys
hold records with distinct names (`hnd`), and `today`'s year is a
realistic one so that distinct names give distinct notice strings. -/
theorem upcoming_birthdays_window_spec
    (book : AddressBook) (today : PyDate) (days : Nat) (l : List String)
    (k : String) (r : Record) (b : Birthday) (occ0 occ : PyDate)
    (hy1 : 1000 ≤ today.year) (hy2 : today.year ≤ 9000)
    (hnd : ((book.data.map (fun p => p.2)).map Record.name).Nodup)
    (hok : get_upcoming_birthdays book today days = .ok l)
    (hmem : (k, r) ∈ book.data)
    (hb : r.birthday = some b)
    (hocc0 : pyReplaceYear b.date today.year = .ok occ0)
    (hocc : (if pyLt occ0 today then pyReplaceYear occ0 (today.year + 1)
             else .ok occ0) = .ok occ) :
    l.count (congratsMessage r.name (shiftWeekend occ)) = 1 ↔
      (today.toOrdinal ≤ occ.toOrdinal ∧
        occ.toOrdinal ≤ today.toOrdinal + days) := by
  classical
  have hrmem : r ∈ book.data.map (fun p => p.2) :=
    List.mem_map.mpr ⟨(k, r), hmem, rfl⟩
  obtain ⟨hocc0eq, hocc0v, -, -⟩ := pyReplaceYear_ok _ _ _ hocc0
  have hoccfacts : occ.Valid ∧
      (occ.year = today.year ∨ occ.year = today.year + 1) := by
    by_cases hlt : pyLt occ0 today = true
    · rw [if_pos hlt] at hocc
      obtain ⟨hoeq, hov, -, -⟩ := pyReplaceYear_ok _ _ _ hocc
      exact ⟨hov, .inr (by rw [hoeq])⟩
    · rw [if_neg hlt] at hocc
      injection hocc with hinj
      subst hinj
      exact ⟨hocc0v, .inl (by rw [hocc0eq])⟩
  have hnr : birthdayNotice today days r =
      if (today.toOrdinal ≤ occ.toOrdinal ∧
          occ.toOrdinal ≤ today.toOrdinal + days) then
        .ok (some (congratsMessage r.name (shiftWeekend occ)))
      else .ok none := by
    unfold birthdayNotice
    rw [hb]
    simp only [hocc0, hocc]
  have hok2 : upcomingAux today days (book.data.map (fun p => p.2)) = .ok l := hok
  have hcount : l.count (congratsMessage r.name (shiftWeekend occ)) =
      (book.data.map (fun p => p.2)).countP
        (fun x => birthdayNotice today days x ==
          .ok (some (congratsMessage r.name (shiftWeekend occ)))) :=
    upcomingAux_count today days (book.data.map (fun p => p.2)) l _ hok2
  have htlen : (strftimeYMD (shiftWeekend occ)).length = 10 := by
    rcases hoccfacts.2 with hyo | hyo <;>
      exact shifted_len occ hoccfacts.1 (by omega) (by omega)
  have hname : ∀ x ∈ book.data.map (fun p => p.2),
      (fun x => birthdayNotice today days x ==
        .ok (some (congratsMessage r.name (shiftWeekend occ)))) x = true →
      x.name = r.name := by
    intro x hx hpx
    rw [beq_iff_eq] at hpx
    obtain ⟨occx, hvx, hyx, hsx⟩ := birthdayNotice_ok_some _ _ _ _ hpx
    have hlx : (strftimeYMD (shiftWeekend occx)).length = 10 := by
      rcases hyx with hyo | hyo <;>
        exact shifted_len occx hvx (by omega) (by omega)
    exact congratsMessage_inj x.name r.name _ _ (hlx.trans htlen.symm) hsx.symm
  have hcp := countP_eq_ite (book.data.map (fun p => p.2)) r
    (fun x => birthdayNotice today days x ==
      .ok (some (congratsMessage r.name (shiftWeekend occ))))
    hnd hrmem hname
  rw [hcount, hcp]
  by_cases hw : (today.toOrdinal ≤ occ.toOrdinal ∧
      occ.toOrdinal ≤ today.toOrdinal + days)
  · have hpr : birthdayNotice today days r =
        .ok (some (congratsMessage r.name (shiftWeekend occ))) := by
      rw [hnr, if_pos hw]
    simp [hpr, hw]
  · have hpr : birthdayNotice today days r = .ok none := by
      rw [hnr, if_neg hw]
    simp [hpr, hw]

theorem upcoming_birthdays_window_spec_witness :
    List.count
        (congratsMessage "Bob" (shiftWeekend ⟨2024, 3, 15⟩))
        ["User Bob has a birthday this week! 2024.03.15"] = 1 ↔
      ((⟨2024, 3, 14⟩ : PyDate).toOrdinal ≤ (⟨2024, 3, 15⟩ : PyDate).toOrdinal ∧
        (⟨2024, 3, 15⟩ : PyDate).toOrdinal ≤ (⟨2024, 3, 14⟩ : PyDate).toOrdinal + 7) :=
  upcoming_birthdays_window_spec
    ⟨[("Bob", ⟨"Bob", [], some ⟨"15.03.1990", ⟨1990, 3, 15⟩⟩⟩)]⟩
    ⟨2024, 3, 14⟩ 7 ["User Bob has a birthday this week! 2024.03.15"]
    "Bob" ⟨"Bob", [], some ⟨"15.03.1990", ⟨1990, 3, 15⟩⟩⟩
    ⟨"15.03.1990", ⟨1990, 3, 15⟩⟩ ⟨2024, 3, 15⟩ ⟨2024, 3, 15⟩
    (by decide) (by decide) (by decide) (by decide) (by decide) (by decide)
    (by decide) (by decide)

/-! ## The strptime field matchers (claim C5) -/

theorem ndVal_le_nine (c : Char) : ndVal c ≤ 9 := by
  unfold ndVal
  cases hf : ndDecadeStarts.find? (fun s =>
      decide (s ≤ c.toNat) && decide (c.toNat < s + 10)) with
  | none => exact Nat.zero_le 9
  | some s =>
    have hp := List.find?_some hf
    simp only [Bool.and_eq_true, decide_eq_true_eq] at hp
    show c.toNat - s ≤ 9
    omega

theorem ascii_nd (c : Char) (h48 : 48 ≤ c.toNat) (h57 : c.toNat ≤ 57) :
    isNdDigit c = true ∧ ndVal c = c.toNat - 48 := by
  have hp : (decide (48 ≤ c.toNat) && decide (c.toNat < 48 + 10)) = true := by
    simp only [Bool.and_eq_true, decide_eq_true_eq]
    omega
  have hp2 : (fun s => decide (s ≤ c.toNat) && decide (c.toNat < s + 10)) 48 = true := hp
  constructor
  · unfold isNdDigit ndDecadeStarts
    simp only [List.any_cons, hp, Bool.true_or]
  · have hfind : List.find? (fun s =>
        decide (s ≤ c.toNat) && decide (c.toNat < s + 10)) ndDecadeStarts =
        some 48 := by
      unfold ndDecadeStarts
      rw [@List.find?_cons_of_pos Nat
        (fun s => decide (s ≤ c.toNat) && decide (c.toNat < s + 10)) 48 _ hp2]
    unfold ndVal
    rw [hfind]

theorem oneNine_nd (c : Char) (h : oneNine c) :
    isNdDigit c = true ∧ 1 ≤ ndVal c ∧ ndVal c ≤ 9 := by
  obtain ⟨h1, h9⟩ := h
  rw [Char.le_def] at h1 h9
  have hlo : 49 ≤ c.toNat := UInt32.le_toNat_of_le (by decide) h1
  have hhi : c.toNat ≤ 57 := UInt32.toNat_le_of_le (by decide) h9
  obtain ⟨hnd, hval⟩ := ascii_nd c (by omega) hhi
  exact ⟨hnd, by omega, by omega⟩

theorem zeroTwo_nd (c : Char) (h0 : '0' ≤ c) (h2 : c ≤ '2') : ndVal c ≤ 2 := by
  rw [Char.le_def] at h0 h2
  have hlo : 48 ≤ c.toNat := UInt32.le_toNat_of_le (by decide) h0
  have hhi : c.toNat ≤ 50 := UInt32.toNat_le_of_le (by decide) h2
  obtain ⟨-, hval⟩ := ascii_nd c hlo (by omega)
  omega

theorem decimalVal_one (c : Char) : decimalVal [c] = ndVal c := by
  simp [decimalVal]

theorem decimalVal_two (c1 c2 : Char) :
    decimalVal [c1, c2] = 10 * ndVal c1 + ndVal c2 := by
  simp [decimalVal]

theorem decimalVal_four (a b c d : Char) :
    decimalVal [a, b, c, d] =
      1000 * ndVal a + 100 * ndVal b + 10 * ndVal c + ndVal d := by
  simp [decimalVal]
  ring

theorem dayTwo_bounds (c1 c2 : Char) (h : dayTwo c1 c2) :
    1 ≤ 10 * ndVal c1 + ndVal c2 ∧ 10 * ndVal c1 + ndVal c2 ≤ 31 := by
  rcases h with ⟨rfl, rfl | rfl⟩ | ⟨h1, hnd⟩ | ⟨rfl, hc2⟩
  · decide
  · decide
  · have h9 := ndVal_le_nine c2
    rcases h1 with rfl | rfl
    · have hv : ndVal '1' = 1 := by decide
      rw [hv]; omega
    · have hv : ndVal '2' = 2 := by decide
      rw [hv]; omega
  · have hv : ndVal '0' = 0 := by decide
    obtain ⟨-, hlo, hhi⟩ := oneNine_nd c2 ⟨hc2.1, hc2.2⟩
    rw [hv]; omega

theorem monthTwo_bounds (c1 c2 : Char) (h : monthTwo c1 c2) :
    1 ≤ 10 * ndVal c1 + ndVal c2 ∧ 10 * ndVal c1 + ndVal c2 ≤ 12 := by
  rcases h with ⟨rfl, hlo2, hhi2⟩ | ⟨rfl, hc2⟩
  · have h2 := zeroTwo_nd c2 hlo2 hhi2
    have hv : ndVal '1' = 1 := by decide
    rw [hv]; omega
  · have hv : ndVal '0' = 0 := by decide
    obtain ⟨-, hlo, hhi⟩ := oneNine_nd c2 ⟨hc2.1, hc2.2⟩
    rw [hv]; omega

theorem matchDay_ok (cs : List Char) (v : Nat) (rest : List Char)
    (h : matchDay cs = some (v, rest)) :
    ∃ ds, cs = ds ++ rest ∧
      ((∃ c, ds = [c] ∧ oneNine c) ∨
        (∃ c1 c2, ds = [c1, c2] ∧ dayTwo c1 c2)) ∧
      decimalVal ds = v ∧ 1 ≤ v ∧ v ≤ 31 := by
  cases cs with
  | nil => simp [matchDay] at h
  | cons c1 cs' =>
    cases cs' with
    | nil =>
      simp only [matchDay] at h
      split at h
      · rename_i h1
        injection h with h2
        injection h2 with hv hr
        subst hv
        subst hr
        obtain ⟨-, hlo, hhi⟩ := oneNine_nd c1 h1
        exact ⟨[c1], by simp, .inl ⟨c1, rfl, h1⟩, decimalVal_one c1,
          hlo, by omega⟩
      · simp at h
    | cons c2 t =>
      simp only [matchDay] at h
      split at h
      · rename_i h2d
        injection h with h2
        injection h2 with hv hr
        subst hv
        subst hr
        have hb := dayTwo_bounds c1 c2 h2d
        exact ⟨[c1, c2], by simp, .inr ⟨c1, c2, rfl, h2d⟩,
          decimalVal_two c1 c2, hb.1, hb.2⟩
      · split at h
        · rename_i h1
          injection h with h2
          injection h2 with hv hr
          subst hv
          subst hr
          obtain ⟨-, hlo, hhi⟩ := oneNine_nd c1 h1
          exact ⟨[c1], by simp, .inl ⟨c1, rfl, h1⟩, decimalVal_one c1,
            hlo, by omega⟩
        · simp at h

theorem matchMonth_ok (cs : List Char) (v : Nat) (rest : List Char)
    (h : matchMonth cs = some (v, rest)) :
    ∃ ms, cs = ms ++ rest ∧
      ((∃ c, ms = [c] ∧ oneNine c) ∨
        (∃ c1 c2, ms = [c1, c2] ∧ monthTwo c1 c2)) ∧
      decimalVal ms = v ∧ 1 ≤ v ∧ v ≤ 12 := by
  cases cs with
  | nil => simp [matchMonth] at h
  | cons c1 cs' =>
    cases cs' with
    | nil =>
      simp only [matchMonth] at h
      split at h
      · rename_i h1
        injection h with h2
        injection h2 with hv hr
        subst hv
        subst hr
        obtain ⟨-, hlo, hhi⟩ := oneNine_nd c1 h1
        exact ⟨[c1], by simp, .inl ⟨c1, rfl, h1⟩, decimalVal_one c1,
          hlo, by omega⟩
      · simp at h
    | cons c2 t =>
      simp only [matchMonth] at h
      split at h
      · rename_i h2m
        injection h with h2
        injection h2 with hv hr
        subst hv
        subst hr
        have hb := monthTwo_bounds c1 c2 h2m
        exact ⟨[c1, c2], by simp, .inr ⟨c1, c2, rfl, h2m⟩,
          decimalVal_two c1 c2, hb.1, hb.2⟩
      · split at h
        · rename_i h1
          injection h with h2
          injection h2 with hv hr
          subst hv
          subst hr
          obtain ⟨-, hlo, hhi⟩ := oneNine_nd c1 h1
          exact ⟨[c1], by simp, .inl ⟨c1, rfl, h1⟩, decimalVal_one c1,
            hlo, by omega⟩
        · simp at h

theorem matchYear_ok (cs : List Char) (v : Nat) (rest : List Char)
    (h : matchYear cs = some (v, rest)) :
    ∃ a b c d, cs = [a, b, c, d] ++ rest ∧
      isNdDigit a = true ∧ isNdDigit b = true ∧ isNdDigit c = true ∧
      isNdDigit d = true ∧ decimalVal [a, b, c, d] = v := by
  rcases cs with - | ⟨a, - | ⟨b, - | ⟨c, - | ⟨d, t⟩⟩⟩⟩
  · simp [matchYear] at h
  · simp [matchYear] at h
  · simp [matchYear] at h
  · simp [matchYear] at h
  · simp only [matchYear] at h
    split at h
    · rename_i hd
      simp only [Bool.and_eq_true] at hd
      injection h with h1
      injection h1 with hv hr
      subst hv
      subst hr
      exact ⟨a, b, c, d, by simp, hd.1.1.1, hd.1.1.2, hd.1.2, hd.2,
        (decimalVal_four a b c d).symm ▸ rfl⟩
    · simp at h

theorem matchDay_two (c1 c2 : Char) (t : List Char) (h : dayTwo c1 c2) :
    matchDay (c1 :: c2 :: t) = some (10 * ndVal c1 + ndVal c2, t) := by
  simp [matchDay, h]

theorem matchDay_one_dot (c1 : Char) (t : List Char) (h : oneNine c1) :
    matchDay (c1 :: '.' :: t) = some (ndVal c1, '.' :: t) := by
  have hno : ¬ dayTwo c1 '.' := by
    rintro (⟨-, hc | hc⟩ | ⟨-, hc⟩ | ⟨-, hc, -⟩)
    · exact absurd hc (by decide)
    · exact absurd hc (by decide)
    · exact absurd hc (by decide)
    · exact absurd hc (by decide)
  simp [matchDay, hno, h]

theorem matchMonth_two (c1 c2 : Char) (t : List Char) (h : monthTwo c1 c2) :
    matchMonth (c1 :: c2 :: t) = some (10 * ndVal c1 + ndVal c2, t) := by
  simp [matchMonth, h]

theorem matchMonth_one_dot (c1 : Char) (t : List Char) (h : oneNine c1) :
    matchMonth (c1 :: '.' :: t) = some (ndVal c1, '.' :: t) := by
  have hno : ¬ monthTwo c1 '.' := by
    rintro (⟨-, hc, -⟩ | ⟨-, hc, -⟩)
    · exact absurd hc (by decide)
    · exact absurd hc (by decide)
  simp [matchMonth, hno, h]

theorem matchYear_complete (a b c d : Char) (t : List Char)
    (ha : isNdDigit a = true) (hb : isNdDigit b = true)
    (hc : isNdDigit c = true) (hd : isNdDigit d = true) :
    matchYear (a :: b :: c :: d :: t) = some (decimalVal [a, b, c, d], t) := by
  rw [decimalVal_four]
  simp [matchYear, ha, hb, hc, hd]

theorem strptimeDMY_sound (s : String) (d : PyDate) (h : strptimeDMY s = some d) :
    ∃ ds ms ys : List Char,
      s.data = ds ++ '.' :: (ms ++ '.' :: ys) ∧ lenientParts ds ms ys ∧
      d = ⟨decimalVal ys, decimalVal ms, decimalVal ds⟩ := by
  unfold strptimeDMY at h
  split at h
  · simp at h
  rename_i D r1 hD
  split at h
  case _ r2 =>
    split at h
    · simp at h
    rename_i M r3 hM
    split at h
    case _ r4 =>
      split at h
      · simp at h
      rename_i Y r5 hY
      split at h
      · rename_i hcond
        obtain ⟨hr5, hy1, hy9999, hdim⟩ := hcond
        subst hr5
        injection h with hinj
        obtain ⟨dsl, hcs, hshape, hval, hD1, hD31⟩ := matchDay_ok _ _ _ hD
        obtain ⟨msl, hcs2, hshape2, hval2, hM1, hM12⟩ := matchMonth_ok _ _ _ hM
        obtain ⟨a, b, c, d4, hcs3, ha, hb2, hc2, hd2, hval3⟩ :=
          matchYear_ok _ _ _ hY
        rw [List.append_nil] at hcs3
        refine ⟨dsl, msl, [a, b, c, d4], ?_, ?_, ?_⟩
        · rw [hcs, hcs2, hcs3]
        · refine ⟨hshape, ?_, ?_, hshape2, ?_, ?_, ?_, rfl, ?_, ?_, ?_⟩
          · rw [hval]; exact hD1
          · rw [hval]; exact hD31
          · rw [hval2]; exact hM1
          · rw [hval2]; exact hM12
          · intro c hc
            simp at hc
            rcases hc with rfl | rfl | rfl | rfl
            · exact ha
            · exact hb2
            · exact hc2
            · exact hd2
          · rw [hval3]; exact hy1
          · rw [hval3]; exact hy9999
          · rw [hval, hval2, hval3]; exact hdim
        · rw [← hinj, hval, hval2, hval3]
      · simp at h
    case _ => simp at h
  case _ => simp at h

theorem strptimeDMY_complete (s : String) (ds ms ys : List Char)
    (hdata : s.data = ds ++ '.' :: (ms ++ '.' :: ys))
    (hp : lenientParts ds ms ys) :
    strptimeDMY s = some ⟨decimalVal ys, decimalVal ms, decimalVal ds⟩ := by
  obtain ⟨hdsh, hd1, hd31, hmsh, hm1, hm12, hyd, hyl, hy1, hy9999, hdim⟩ := hp
  have hday : matchDay s.data =
      some (decimalVal ds, '.' :: (ms ++ '.' :: ys)) := by
    rcases hdsh with ⟨c, rfl, hone⟩ | ⟨c1, c2, rfl, htwo⟩
    · rw [hdata, decimalVal_one]
      exact matchDay_one_dot c _ hone
    · rw [hdata, decimalVal_two]
      simp only [List.cons_append, List.nil_append]
      exact matchDay_two c1 c2 _ htwo
  have hmonth : matchMonth (ms ++ '.' :: ys) =
      some (decimalVal ms, '.' :: ys) := by
    rcases hmsh with ⟨c, rfl, hone⟩ | ⟨c1, c2, rfl, htwo⟩
    · rw [decimalVal_one]
      exact matchMonth_one_dot c _ hone
    · rw [decimalVal_two]
      simp only [List.cons_append, List.nil_append]
      exact matchMonth_two c1 c2 _ htwo
  have hys : ∃ a b c d4, ys = [a, b, c, d4] := by
    rcases ys with - | ⟨a, - | ⟨b, - | ⟨c, - | ⟨d4, t⟩⟩⟩⟩
    · simp at hyl
    · simp at hyl
    · simp at hyl
    · simp at hyl
    · have hlen0 : t.length = 0 := by
        simp only [List.length_cons] at hyl
        omega
      have ht : t = [] := List.length_eq_zero.mp hlen0
      exact ⟨a, b, c, d4, by rw [ht]⟩
  obtain ⟨a, b, c, d4, rfl⟩ := hys
  have hyear : matchYear [a, b, c, d4] =
      some (decimalVal [a, b, c, d4], []) :=
    matchYear_complete a b c d4 [] (hyd a (by simp)) (hyd b (by simp))
      (hyd c (by simp)) (hyd d4 (by simp))
  unfold strptimeDMY
  rw [hday]
  simp only [hmonth, hyear]
  rw [if_pos ⟨trivial, hy1, hy9999, hdim⟩]

/-- Concrete checks of the matchers' Unicode behaviour, mirroring CPython:
ten fullwidth digits validate as a phone; a day written as ASCII `2` plus
Arabic-Indic five is 25 and a year may end in an Arabic-Indic zero, while
an Nd digit in the day's first position or anywhere in the month does not
match the ASCII literals and ranges of those patterns. -/
theorem unicode_digit_examples :
    Phone.construct "１２３４５６７８９０" = .ok ⟨"１２３４５６７８９０"⟩ ∧
    Birthday.construct "2٥.03.1990" = .ok ⟨"2٥.03.1990", ⟨1990, 3, 25⟩⟩ ∧
    Birthday.construct "15.03.199٠" = .ok ⟨"15.03.199٠", ⟨1990, 3, 15⟩⟩ ∧
    Birthday.construct "٢5.03.1990" = .error "Invalid date format. Use DD.MM.YYYY" ∧
    Birthday.construct "1.1٠.1990" = .error "Invalid date format. Use DD.MM.YYYY" := by
  decide
